import Mathlib

/-!
Verification development for the syntax-tree view provider in
src/Source/commands/syntaxTree.ts (class SyntaxTreeProvider).

The provider keeps a cache mapping a document identity (the string form of the
document uri) to the fetched syntax-tree artifact text, invalidates the cache on
editor lifecycle events, and serves the view content either from the cache or by
issuing one request to the external analysis service.

The embedding is shallow: the JS Map becomes an association list with the same
get / set / delete behaviour, the event emitter becomes a list of fired view
identities, and the asynchronous request becomes an oracle parameter giving the
outcome of the fetch (success with text, failure, or cancellation).  The
asynchronous provideTextDocumentContent is split in two phases: the synchronous
part up to issuing the request, and the continuation installed with then, which
runs only on a successful settlement.
-/

namespace SyntaxTreeSpec

/-- FilePath from the source: the string form of a document uri, used as the cache key. -/
abbrev FilePath := String

/-- Fixed view resource identity, SyntaxTreeProvider.uri in the source:
the single virtual document biome:syntax_tree/tree.rast. -/
def viewUri : String := "biome:syntax_tree/tree.rast"

/-- A text document, reduced to the one field the provider reads: its uri string. -/
structure TextDocument where
  uri : FilePath
deriving DecidableEq, Repr

/-- A text editor, reduced to the document it shows.  The relevance classifier
isBiomeEditor lives in src/Source/utils (not among the sources) and is passed in
as an opaque boolean predicate, matching the spec, which delegates relevance to
an external classifier. -/
structure TextEditor where
  document : TextDocument
deriving DecidableEq, Repr

/-- Lookup in a JS Map modelled as an association list: value of the first
matching key, or none. -/
def mapGet (m : List (FilePath × String)) (k : FilePath) : Option String :=
  match m with
  | [] => none
  | (k1, v1) :: rest => if k1 = k then some v1 else mapGet rest k

/-- Map.set: overwrite the entry for the key in place, or append a new entry. -/
def mapSet (m : List (FilePath × String)) (k : FilePath) (v : String) :
    List (FilePath × String) :=
  match m with
  | [] => [(k, v)]
  | (k1, v1) :: rest => if k1 = k then (k, v) :: rest else (k1, v1) :: mapSet rest k v

/-- Map.delete: remove the entry for the key if present. -/
def mapDelete (m : List (FilePath × String)) (k : FilePath) :
    List (FilePath × String) :=
  match m with
  | [] => []
  | (k1, v1) :: rest => if k1 = k then rest else (k1, v1) :: mapDelete rest k

/-- Observable state of one SyntaxTreeProvider: the documents cache, and the
sequence of identities fired on the event emitter.  Modelled from the spec for
the cache values: SyntaxTreeDocument (src/Source/commands/syntaxTreeDocument.ts
is not among the sources) stores the fetched artifact text and its value
accessor returns exactly that text, so the cache maps an identity directly to
the artifact text. -/
structure ProviderState where
  documents : List (FilePath × String)
  fires : List String
deriving DecidableEq, Repr

/-- State of a freshly constructed provider: empty cache, nothing fired. -/
def initialState : ProviderState := ⟨[], []⟩

/-- Handler for workspace.onDidChangeTextDocument: delete the changed document
from the cache (keyed by its uri string) and fire the emitter with the view uri. -/
def onDidChangeTextDocument (st : ProviderState) (eventUri : FilePath) : ProviderState :=
  ⟨mapDelete st.documents eventUri, st.fires ++ [viewUri]⟩

/-- Handler for window.onDidChangeActiveTextEditor: if the new editor is present
and the classifier accepts it, fire the emitter with the view uri; the cache is
never touched. -/
def onDidChangeActiveTextEditor (isBiomeEditor : TextEditor → Bool)
    (st : ProviderState) (editor : Option TextEditor) : ProviderState :=
  match editor with
  | some ed => if isBiomeEditor ed then ⟨st.documents, st.fires ++ [viewUri]⟩ else st
  | none => st

/-- Handler for workspace.onDidCloseTextDocument: if the document is present,
delete it from the cache and fire the emitter with the view uri. -/
def onDidCloseTextDocument (st : ProviderState) (doc : Option TextDocument) : ProviderState :=
  match doc with
  | some d => ⟨mapDelete st.documents d.uri, st.fires ++ [viewUri]⟩
  | none => st

/-- Identity captured on the cache-miss path of provideTextDocumentContent: the
uri string of the active document at call time, under which a successful result
is stored. -/
structure PendingFetch where
  documentUri : FilePath
deriving DecidableEq, Repr

/-- Outcome of the request sent to the external analysis service: the promise
resolves with the artifact text, rejects with a service error, or settles
cancelled.  Supplied as an oracle since the service is external. -/
inductive FetchOutcome where
  | success (artifactText : String)
  | failure (err : String)
  | cancelled
deriving DecidableEq, Repr

/-- Result of the synchronous part of provideTextDocumentContent, up to (and
including) the decision to issue a request. -/
inductive ProvideStartResult where
  | noContent
  | cachedContent (value : String)
  | fetchStarted (pending : PendingFetch)
deriving DecidableEq, Repr

/-- How a provideTextDocumentContent call settles for its caller: with content,
with undefined (no active editor), rejected with the service error, or
cancelled. -/
inductive ProvideOutcome where
  | content (text : String)
  | noContent
  | failed (err : String)
  | cancelled
deriving DecidableEq, Repr

/-- Synchronous part of provideTextDocumentContent: return undefined when there
is no active editor; otherwise compute the active document uri, return the
cached value on a hit, and on a miss issue a request capturing that uri. -/
def provideTextDocumentContent_start (editor : Option TextEditor)
    (st : ProviderState) : ProvideStartResult :=
  match editor with
  | none => .noContent
  | some ed =>
    match mapGet st.documents ed.document.uri with
    | some value => .cachedContent value
    | none => .fetchStarted ⟨ed.document.uri⟩

/-- Continuation installed with then on the request promise: on success, store
the artifact text in the cache under the captured identity and resolve with it;
a rejection or a cancellation bypasses the continuation (then has no rejection
handler in the source), leaving the state untouched and propagating the outcome
unchanged. -/
def provideTextDocumentContent_complete (st : ProviderState) (p : PendingFetch)
    (outcome : FetchOutcome) : ProviderState × ProvideOutcome :=
  match outcome with
  | .success artifactText =>
      (⟨mapSet st.documents p.documentUri artifactText, st.fires⟩, .content artifactText)
  | .failure err => (st, .failed err)
  | .cancelled => (st, .cancelled)

/-- One full provideTextDocumentContent call with no interleaving between issuing
the request and its settlement: the final state, the settled outcome, and the
number of requests issued to the external service. -/
structure ProvideResult where
  state : ProviderState
  result : ProvideOutcome
  fetchCount : Nat
deriving DecidableEq, Repr

/-- provideTextDocumentContent run to settlement: the oracle gives the outcome
of the request in case one is issued. -/
def provideTextDocumentContent (editor : Option TextEditor) (st : ProviderState)
    (outcome : FetchOutcome) : ProvideResult :=
  match provideTextDocumentContent_start editor st with
  | .noContent => ⟨st, .noContent, 0⟩
  | .cachedContent value => ⟨st, .content value, 0⟩
  | .fetchStarted p =>
      let c := provideTextDocumentContent_complete st p outcome
      ⟨c.1, c.2, 1⟩

/-- dispose: clear the documents cache. -/
def dispose (st : ProviderState) : ProviderState :=
  ⟨[], st.fires⟩

/-- Document links carry no data the provider ever produces: the source only
ever returns an empty array or undefined. -/
abbrev DocumentLink := Unit

/-- provideDocumentLinks: an empty link list when the given document is cached,
undefined otherwise (the source falls off the end of the function). -/
def provideDocumentLinks (st : ProviderState) (document : TextDocument) :
    Option (List DocumentLink) :=
  match mapGet st.documents document.uri with
  | some _ => some []
  | none => none

/-- Well-formedness a JS Map always has: pairwise distinct keys. -/
def WellFormed (st : ProviderState) : Prop :=
  (st.documents.map Prod.fst).Nodup

/-! System machine for the reachability claim: interleavings of provider calls,
fetch settlements and lifecycle events, with a log of what was issued, settled
and invalidated. -/

/-- One observable happening, recorded alongside the state so that claims about
the history of fetches and invalidations can be stated. -/
inductive LogEntry where
  | issued (id : Nat) (uri : FilePath)
  | settled (id : Nat) (uri : FilePath) (outcome : FetchOutcome)
  | invalidated (uri : FilePath)
  | cleared
deriving DecidableEq, Repr

/-- Whole-system state: the provider, the fetches currently in flight (the
source performs no in-flight de-duplication, so several may target the same
identity), a fresh-id counter, and the history log. -/
structure SysState where
  provider : ProviderState
  pending : List (Nat × PendingFetch)
  nextId : Nat
  log : List LogEntry
deriving DecidableEq, Repr

/-- State of a freshly constructed system. -/
def initSys : SysState := ⟨initialState, [], 0, []⟩

/-- External events the system reacts to.  A provideCall runs the synchronous
part of provideTextDocumentContent against the current state; a fetchSettled
settles the idx-th in-flight fetch with the given service outcome (running the
stored continuation only on success). -/
inductive Event where
  | docChanged (uri : FilePath)
  | docClosed (doc : Option TextDocument)
  | editorChanged (editor : Option TextEditor)
  | provideCall (editor : Option TextEditor)
  | fetchSettled (idx : Nat) (outcome : FetchOutcome)
  | disposeCall
deriving DecidableEq, Repr

/-- One step of the system.  Lifecycle handlers run synchronously; a provide
call issues a fetch exactly on the miss path; a settlement removes the fetch
from flight and applies the continuation semantics of the source. -/
def stepSys (cls : TextEditor → Bool) (s : SysState) : Event → SysState
  | .docChanged u =>
      ⟨onDidChangeTextDocument s.provider u, s.pending, s.nextId,
        s.log ++ [.invalidated u]⟩
  | .docClosed doc =>
      match doc with
      | some d =>
          ⟨onDidCloseTextDocument s.provider (some d), s.pending, s.nextId,
            s.log ++ [.invalidated d.uri]⟩
      | none => s
  | .editorChanged e =>
      ⟨onDidChangeActiveTextEditor cls s.provider e, s.pending, s.nextId, s.log⟩
  | .provideCall editor =>
      match provideTextDocumentContent_start editor s.provider with
      | .fetchStarted p =>
          ⟨s.provider, s.pending ++ [(s.nextId, p)], s.nextId + 1,
            s.log ++ [.issued s.nextId p.documentUri]⟩
      | _ => s
  | .fetchSettled idx outcome =>
      match s.pending[idx]? with
      | some (id, p) =>
          ⟨(provideTextDocumentContent_complete s.provider p outcome).1,
            s.pending.eraseIdx idx, s.nextId,
            s.log ++ [.settled id p.documentUri outcome]⟩
      | none => s
  | .disposeCall =>
      ⟨dispose s.provider, s.pending, s.nextId, s.log ++ [.cleared]⟩

/-- Run of the system over a list of events from the initial state. -/
def runSys (cls : TextEditor → Bool) (events : List Event) : SysState :=
  events.foldl (stepSys cls) initSys

/-- Id of the last fetch issued for the given identity, per the log. -/
def lastIssuedId (log : List LogEntry) (uri : FilePath) : Option Nat :=
  log.foldl (fun acc e =>
    match e with
    | .issued id u => if u = uri then some id else acc
    | _ => acc) none

/-- Whether the fetch with the given id settled successfully, per the log. -/
def settledSuccessfully (log : List LogEntry) (id : Nat) : Bool :=
  log.any (fun e =>
    match e with
    | .settled i _ (.success _) => i = id
    | _ => false)

/-- Log suffix strictly after the issuance of the given fetch. -/
def entriesAfterIssue (log : List LogEntry) (id : Nat) (uri : FilePath) :
    List LogEntry :=
  match log with
  | [] => []
  | e :: rest =>
      if e = .issued id uri then rest else entriesAfterIssue rest id uri

/-- Whether no invalidation of the given identity (and no dispose) appears after
the issuance of the given fetch. -/
def noInvalidationAfterIssue (log : List LogEntry) (id : Nat) (uri : FilePath) :
    Bool :=
  (entriesAfterIssue log id uri).all (fun e =>
    e ≠ LogEntry.invalidated uri && e ≠ LogEntry.cleared)

/-- The C4 claim as stated, as a checkable predicate on a system state: keys are
unique, and every cached identity has its last issued fetch settled successfully
with no invalidation of that identity since that fetch was issued. -/
def cacheReflectsLastFetch (s : SysState) : Bool :=
  decide ((s.provider.documents.map Prod.fst).Nodup) &&
  s.provider.documents.all (fun kv =>
    match lastIssuedId s.log kv.1 with
    | some id => settledSuccessfully s.log id && noInvalidationAfterIssue s.log id kv.1
    | none => false)

/-- A cache entry is justified by the log: some fetch for its identity settled
successfully with exactly the stored text, and no invalidation of that identity
and no dispose happened after that settlement. -/
def GoodEntry (log : List LogEntry) (uri : FilePath) (v : String) : Prop :=
  ∃ id pre post, log = pre ++ LogEntry.settled id uri (.success v) :: post ∧
    ∀ e ∈ post, e ≠ LogEntry.invalidated uri ∧ e ≠ LogEntry.cleared

/-- Inductive invariant of the system: unique cache keys, and every entry
justified by the log. -/
def SysInv (s : SysState) : Prop :=
  (s.provider.documents.map Prod.fst).Nodup ∧
  ∀ uri v, (uri, v) ∈ s.provider.documents → GoodEntry s.log uri v

/-! Lemmas about the map operations. -/

theorem mapGet_eq_none_of_not_mem (m : List (FilePath × String)) (k : FilePath)
    (h : k ∉ m.map Prod.fst) : mapGet m k = none := by
  induction m with
  | nil => rfl
  | cons kv rest ih =>
      obtain ⟨k1, v1⟩ := kv
      simp only [List.map_cons, List.mem_cons, not_or] at h
      have hne : k1 ≠ k := fun hh => h.1 hh.symm
      simp [mapGet, hne, ih h.2]

theorem mapDelete_sublist (m : List (FilePath × String)) (k : FilePath) :
    (mapDelete m k).Sublist m := by
  induction m with
  | nil => exact List.Sublist.refl _
  | cons kv rest ih =>
      obtain ⟨k1, v1⟩ := kv
      by_cases h : k1 = k
      · simp only [mapDelete, if_pos h]
        exact List.sublist_cons_self _ _
      · simp only [mapDelete, if_neg h]
        exact List.Sublist.cons₂ (k1, v1) ih

theorem mapGet_mapDelete_self (m : List (FilePath × String)) (k : FilePath)
    (hnd : (m.map Prod.fst).Nodup) : mapGet (mapDelete m k) k = none := by
  induction m with
  | nil => rfl
  | cons kv rest ih =>
      obtain ⟨k1, v1⟩ := kv
      simp only [List.map_cons, List.nodup_cons] at hnd
      by_cases h : k1 = k
      · simp only [mapDelete, if_pos h]
        exact mapGet_eq_none_of_not_mem rest k (h ▸ hnd.1)
      · simp only [mapDelete, if_neg h, mapGet, if_neg h]
        exact ih hnd.2

theorem mapGet_mapDelete_ne (m : List (FilePath × String)) (k1 k2 : FilePath)
    (h : k1 ≠ k2) : mapGet (mapDelete m k1) k2 = mapGet m k2 := by
  induction m with
  | nil => rfl
  | cons kv rest ih =>
      obtain ⟨ka, va⟩ := kv
      by_cases hk : ka = k1
      · have hka2 : ¬ ka = k2 := fun hh => h (hk.symm.trans hh)
        simp only [mapDelete, if_pos hk, mapGet, if_neg hka2]
      · simp only [mapDelete, if_neg hk, mapGet]
        by_cases hk2 : ka = k2
        · simp only [if_pos hk2]
        · simp only [if_neg hk2, ih]

theorem mapGet_mapSet_self (m : List (FilePath × String)) (k : FilePath) (v : String) :
    mapGet (mapSet m k v) k = some v := by
  induction m with
  | nil => simp [mapSet, mapGet]
  | cons kv rest ih =>
      obtain ⟨k1, v1⟩ := kv
      by_cases h : k1 = k
      · simp [mapSet, if_pos h, mapGet]
      · simp only [mapSet, if_neg h, mapGet, if_neg h, ih]

theorem mem_map_fst_mapSet (m : List (FilePath × String)) (k : FilePath) (v : String)
    (x : FilePath) (hx : x ∈ (mapSet m k v).map Prod.fst) :
    x = k ∨ x ∈ m.map Prod.fst := by
  induction m with
  | nil =>
      simp only [mapSet, List.map_cons, List.map_nil, List.mem_singleton] at hx
      exact Or.inl hx
  | cons kv rest ih =>
      obtain ⟨k1, v1⟩ := kv
      by_cases h : k1 = k
      · simp only [mapSet, if_pos h, List.map_cons, List.mem_cons] at hx
        rcases hx with hx | hx
        · exact Or.inl hx
        · exact Or.inr (by simp [hx])
      · simp only [mapSet, if_neg h, List.map_cons, List.mem_cons] at hx
        rcases hx with hx | hx
        · exact Or.inr (by simp [hx])
        · rcases ih hx with hk | hm
          · exact Or.inl hk
          · exact Or.inr (by simp [hm])

theorem nodup_mapSet (m : List (FilePath × String)) (k : FilePath) (v : String)
    (hnd : (m.map Prod.fst).Nodup) : ((mapSet m k v).map Prod.fst).Nodup := by
  induction m with
  | nil => simp [mapSet]
  | cons kv rest ih =>
      obtain ⟨k1, v1⟩ := kv
      simp only [List.map_cons, List.nodup_cons] at hnd
      by_cases h : k1 = k
      · simp only [mapSet, if_pos h, List.map_cons, List.nodup_cons]
        exact ⟨h ▸ hnd.1, hnd.2⟩
      · simp only [mapSet, if_neg h, List.map_cons, List.nodup_cons]
        refine ⟨fun hmem => ?_, ih hnd.2⟩
        rcases mem_map_fst_mapSet rest k v k1 hmem with hk | hm
        · exact h hk
        · exact hnd.1 hm

theorem nodup_mapDelete (m : List (FilePath × String)) (k : FilePath)
    (hnd : (m.map Prod.fst).Nodup) : ((mapDelete m k).map Prod.fst).Nodup :=
  ((mapDelete_sublist m k).map Prod.fst).nodup hnd

theorem mem_mapDelete (m : List (FilePath × String)) (u k : FilePath) (v : String)
    (hnd : (m.map Prod.fst).Nodup) (hmem : (k, v) ∈ mapDelete m u) :
    (k, v) ∈ m ∧ k ≠ u := by
  induction m with
  | nil => cases hmem
  | cons kv rest ih =>
      obtain ⟨k1, v1⟩ := kv
      simp only [List.map_cons, List.nodup_cons] at hnd
      by_cases h : k1 = u
      · have hrest : (k, v) ∈ rest := by simpa [mapDelete, h] using hmem
        refine ⟨List.mem_cons_of_mem _ hrest, fun hk => ?_⟩
        apply hnd.1
        rw [h, ← hk]
        exact List.mem_map.mpr ⟨(k, v), hrest, rfl⟩
      · simp only [mapDelete, if_neg h, List.mem_cons] at hmem
        rcases hmem with hmem | hmem
        · rw [Prod.mk.injEq] at hmem
          refine ⟨?_, fun hk => h (hmem.1 ▸ hk)⟩
          rw [hmem.1, hmem.2]
          exact List.mem_cons_self _ _
        · obtain ⟨h1, h2⟩ := ih hnd.2 hmem
          exact ⟨List.mem_cons_of_mem _ h1, h2⟩

theorem mem_mapSet (m : List (FilePath × String)) (u k : FilePath) (w v : String)
    (hnd : (m.map Prod.fst).Nodup) (hmem : (k, v) ∈ mapSet m u w) :
    (k = u ∧ v = w) ∨ ((k, v) ∈ m ∧ k ≠ u) := by
  induction m with
  | nil =>
      simp only [mapSet, List.mem_singleton, Prod.mk.injEq] at hmem
      exact Or.inl hmem
  | cons kv rest ih =>
      obtain ⟨k1, v1⟩ := kv
      simp only [List.map_cons, List.nodup_cons] at hnd
      by_cases h : k1 = u
      · have hmem2 : (k, v) ∈ (u, w) :: rest := by simpa [mapSet, h] using hmem
        simp only [List.mem_cons, Prod.mk.injEq] at hmem2
        rcases hmem2 with hmem2 | hmem2
        · exact Or.inl hmem2
        · refine Or.inr ⟨List.mem_cons_of_mem _ hmem2, fun hk => ?_⟩
          apply hnd.1
          rw [h, ← hk]
          exact List.mem_map.mpr ⟨(k, v), hmem2, rfl⟩
      · simp only [mapSet, if_neg h, List.mem_cons, Prod.mk.injEq] at hmem
        rcases hmem with hmem | hmem
        · refine Or.inr ⟨?_, fun hk => h (hmem.1 ▸ hk)⟩
          rw [hmem.1, hmem.2]
          exact List.mem_cons_self _ _
        · rcases ih hnd.2 hmem with hk | hm
          · exact Or.inl hk
          · exact Or.inr ⟨List.mem_cons_of_mem _ hm.1, hm.2⟩

/-! Lemmas about the system machine. -/

theorem documents_onDidChangeActiveTextEditor (cls : TextEditor → Bool)
    (st : ProviderState) (e : Option TextEditor) :
    (onDidChangeActiveTextEditor cls st e).documents = st.documents := by
  cases e with
  | none => rfl
  | some ed => by_cases h : cls ed <;> simp [onDidChangeActiveTextEditor, h]

theorem GoodEntry_append (log : List LogEntry) (uri : FilePath) (v : String)
    (e : LogEntry) (hg : GoodEntry log uri v)
    (h1 : e ≠ LogEntry.invalidated uri) (h2 : e ≠ LogEntry.cleared) :
    GoodEntry (log ++ [e]) uri v := by
  obtain ⟨id, pre, post, hlog, hpost⟩ := hg
  refine ⟨id, pre, post ++ [e], ?_, ?_⟩
  · rw [hlog]
    simp
  · intro x hx
    rcases List.mem_append.mp hx with hx | hx
    · exact hpost x hx
    · rw [List.mem_singleton] at hx
      subst hx
      exact ⟨h1, h2⟩

theorem SysInv_init : SysInv initSys := by
  constructor
  · simp [initSys, initialState]
  · intro uri v h
    simp [initSys, initialState] at h

theorem SysInv_step (cls : TextEditor → Bool) (s : SysState) (e : Event)
    (h : SysInv s) : SysInv (stepSys cls s e) := by
  obtain ⟨hnd, hgood⟩ := h
  cases e with
  | docChanged u =>
      constructor
      · simp only [stepSys, onDidChangeTextDocument]
        exact nodup_mapDelete _ _ hnd
      · intro uri v hmem
        simp only [stepSys, onDidChangeTextDocument] at hmem ⊢
        obtain ⟨hm, hne⟩ := mem_mapDelete _ u uri v hnd hmem
        refine GoodEntry_append _ _ _ _ (hgood uri v hm) ?_ (by simp)
        intro hh
        injection hh with h3
        exact hne h3.symm
  | docClosed doc =>
      cases doc with
      | none => exact ⟨hnd, hgood⟩
      | some d =>
          constructor
          · simp only [stepSys, onDidCloseTextDocument]
            exact nodup_mapDelete _ _ hnd
          · intro uri v hmem
            simp only [stepSys, onDidCloseTextDocument] at hmem ⊢
            obtain ⟨hm, hne⟩ := mem_mapDelete _ d.uri uri v hnd hmem
            refine GoodEntry_append _ _ _ _ (hgood uri v hm) ?_ (by simp)
            intro hh
            injection hh with h3
            exact hne h3.symm
  | editorChanged e2 =>
      constructor
      · simpa only [stepSys, documents_onDidChangeActiveTextEditor] using hnd
      · intro uri v hmem
        simp only [stepSys, documents_onDidChangeActiveTextEditor] at hmem
        exact hgood uri v hmem
  | provideCall editor =>
      cases hstart : provideTextDocumentContent_start editor s.provider with
      | noContent =>
          simp only [stepSys, hstart]
          exact ⟨hnd, hgood⟩
      | cachedContent value =>
          simp only [stepSys, hstart]
          exact ⟨hnd, hgood⟩
      | fetchStarted p =>
          constructor
          · simpa only [stepSys, hstart] using hnd
          · intro uri v hmem
            simp only [stepSys, hstart] at hmem ⊢
            exact GoodEntry_append _ _ _ _ (hgood uri v hmem) (by simp) (by simp)
  | fetchSettled idx outcome =>
      cases hp : s.pending[idx]? with
      | none =>
          simp only [stepSys, hp]
          exact ⟨hnd, hgood⟩
      | some idp =>
          obtain ⟨id, p⟩ := idp
          cases outcome with
          | success txt =>
              constructor
              · simp only [stepSys, hp, provideTextDocumentContent_complete]
                exact nodup_mapSet _ _ _ hnd
              · intro uri v hmem
                simp only [stepSys, hp, provideTextDocumentContent_complete] at hmem ⊢
                rcases mem_mapSet _ p.documentUri uri txt v hnd hmem with heq | hm
                · obtain ⟨h1, h2⟩ := heq
                  subst h1
                  subst h2
                  exact ⟨id, s.log, [], by simp, by simp⟩
                · refine GoodEntry_append _ _ _ _ (hgood uri v hm.1) ?_ (by simp)
                  simp
          | failure err =>
              constructor
              · simpa only [stepSys, hp, provideTextDocumentContent_complete] using hnd
              · intro uri v hmem
                simp only [stepSys, hp, provideTextDocumentContent_complete] at hmem ⊢
                exact GoodEntry_append _ _ _ _ (hgood uri v hmem) (by simp) (by simp)
          | cancelled =>
              constructor
              · simpa only [stepSys, hp, provideTextDocumentContent_complete] using hnd
              · intro uri v hmem
                simp only [stepSys, hp, provideTextDocumentContent_complete] at hmem ⊢
                exact GoodEntry_append _ _ _ _ (hgood uri v hmem) (by simp) (by simp)
  | disposeCall =>
      constructor
      · simp [stepSys, dispose]
      · intro uri v hmem
        simp [stepSys, dispose] at hmem

theorem SysInv_foldl (cls : TextEditor → Bool) (events : List Event)
    (s : SysState) (hs : SysInv s) : SysInv (events.foldl (stepSys cls) s) := by
  induction events generalizing s with
  | nil => exact hs
  | cons e rest ih => exact ih _ (SysInv_step cls s e hs)

/-- Four events reachable in the source: two provideTextDocumentContent calls
for the same uncached document (the source performs no in-flight
de-duplication, so the second call starts its own fetch), then the first fetch
settles successfully, then the second settles as a failure. -/
def dupFetchEvents : List Event :=
  [Event.provideCall (some ⟨⟨"file:///a.ts"⟩⟩),
   Event.provideCall (some ⟨⟨"file:///a.ts"⟩⟩),
   Event.fetchSettled 0 (FetchOutcome.success "TREE(a)"),
   Event.fetchSettled 0 (FetchOutcome.failure "late failure")]

/-! Claim theorems. -/

/-- C1: for every document identity with an entry in the cache that is the
active document, provideTextDocumentContent returns exactly the cached artifact
text, issues no request to the external analysis service (fetch count zero), and
leaves the state unchanged, whatever the service oracle would have answered. -/
theorem C1_cache_hit_returns_cached_text (st : ProviderState) (ed : TextEditor)
    (v : String) (outcome : FetchOutcome)
    (hcache : mapGet st.documents ed.document.uri = some v) :
    provideTextDocumentContent (some ed) st outcome = ⟨st, .content v, 0⟩ := by
  simp [provideTextDocumentContent, provideTextDocumentContent_start, hcache]

/-- Witness for C1 at a concrete cached state. -/
theorem C1_cache_hit_returns_cached_text_witness :
    provideTextDocumentContent (some ⟨⟨"file:///a.ts"⟩⟩)
        ⟨[("file:///a.ts", "TREE(a)")], []⟩ (.failure "unused") =
      ⟨⟨[("file:///a.ts", "TREE(a)")], []⟩, .content "TREE(a)", 0⟩ :=
  C1_cache_hit_returns_cached_text ⟨[("file:///a.ts", "TREE(a)")], []⟩
    ⟨⟨"file:///a.ts"⟩⟩ "TREE(a)" (.failure "unused") (by decide)

/-- C2: after the document-changed handler or the document-closed handler runs
for identity D, the cache lookup for D is absent, and the next
provideTextDocumentContent call with D active issues exactly one request to the
external analysis service. -/
theorem C2_invalidation_then_single_fetch (st : ProviderState) (D : FilePath)
    (d : TextDocument) (ed : TextEditor) (outcome : FetchOutcome)
    (hwf : WellFormed st) (hd : d.uri = D) (hed : ed.document.uri = D) :
    mapGet (onDidChangeTextDocument st D).documents D = none ∧
    mapGet (onDidCloseTextDocument st (some d)).documents D = none ∧
    (provideTextDocumentContent (some ed) (onDidChangeTextDocument st D)
        outcome).fetchCount = 1 ∧
    (provideTextDocumentContent (some ed) (onDidCloseTextDocument st (some d))
        outcome).fetchCount = 1 := by
  have hch : mapGet (onDidChangeTextDocument st D).documents D = none := by
    simp only [onDidChangeTextDocument]
    exact mapGet_mapDelete_self st.documents D hwf
  have hcl : mapGet (onDidCloseTextDocument st (some d)).documents D = none := by
    simp only [onDidCloseTextDocument, hd]
    exact mapGet_mapDelete_self st.documents D hwf
  refine ⟨hch, hcl, ?_, ?_⟩
  · simp [provideTextDocumentContent, provideTextDocumentContent_start, hed, hch]
  · simp [provideTextDocumentContent, provideTextDocumentContent_start, hed, hcl]

/-- Witness for C2 at a concrete cached state. -/
theorem C2_invalidation_then_single_fetch_witness :
    mapGet (onDidChangeTextDocument ⟨[("file:///a.ts", "TREE(a)")], []⟩
        "file:///a.ts").documents "file:///a.ts" = none ∧
    mapGet (onDidCloseTextDocument ⟨[("file:///a.ts", "TREE(a)")], []⟩
        (some ⟨"file:///a.ts"⟩)).documents "file:///a.ts" = none ∧
    (provideTextDocumentContent (some ⟨⟨"file:///a.ts"⟩⟩)
        (onDidChangeTextDocument ⟨[("file:///a.ts", "TREE(a)")], []⟩ "file:///a.ts")
        (.success "TREE(a2)")).fetchCount = 1 ∧
    (provideTextDocumentContent (some ⟨⟨"file:///a.ts"⟩⟩)
        (onDidCloseTextDocument ⟨[("file:///a.ts", "TREE(a)")], []⟩
          (some ⟨"file:///a.ts"⟩))
        (.success "TREE(a2)")).fetchCount = 1 :=
  C2_invalidation_then_single_fetch ⟨[("file:///a.ts", "TREE(a)")], []⟩
    "file:///a.ts" ⟨"file:///a.ts"⟩ ⟨⟨"file:///a.ts"⟩⟩ (.success "TREE(a2)")
    (by simp [WellFormed]) rfl rfl

/-- C3: a fetch that settles as a failure or a cancellation writes no cache
entry (the whole state is returned unchanged, so a lookup that was absent before
stays absent) and the outcome reaches the caller of provideTextDocumentContent
unchanged. -/
theorem C3_failure_and_cancellation_leave_no_trace (st : ProviderState)
    (ed : TextEditor) (err : String)
    (hmiss : mapGet st.documents ed.document.uri = none) :
    provideTextDocumentContent (some ed) st (.failure err) = ⟨st, .failed err, 1⟩ ∧
    provideTextDocumentContent (some ed) st .cancelled = ⟨st, .cancelled, 1⟩ ∧
    mapGet (provideTextDocumentContent (some ed) st (.failure err)).state.documents
      ed.document.uri = none ∧
    mapGet (provideTextDocumentContent (some ed) st .cancelled).state.documents
      ed.document.uri = none := by
  refine ⟨?_, ?_, ?_, ?_⟩ <;>
    simp [provideTextDocumentContent, provideTextDocumentContent_start,
      provideTextDocumentContent_complete, hmiss]

/-- Witness for C3 at the empty cache. -/
theorem C3_failure_and_cancellation_leave_no_trace_witness :
    provideTextDocumentContent (some ⟨⟨"file:///c.ts"⟩⟩) initialState
        (.failure "server down") = ⟨initialState, .failed "server down", 1⟩ ∧
    provideTextDocumentContent (some ⟨⟨"file:///c.ts"⟩⟩) initialState
        .cancelled = ⟨initialState, .cancelled, 1⟩ ∧
    mapGet (provideTextDocumentContent (some ⟨⟨"file:///c.ts"⟩⟩) initialState
        (.failure "server down")).state.documents "file:///c.ts" = none ∧
    mapGet (provideTextDocumentContent (some ⟨⟨"file:///c.ts"⟩⟩) initialState
        .cancelled).state.documents "file:///c.ts" = none :=
  C3_failure_and_cancellation_leave_no_trace initialState ⟨⟨"file:///c.ts"⟩⟩
    "server down" rfl

/-- C4 counterexample: the claim as stated fails on a reachable interleaving.
With two concurrent fetches for the same identity (the source has no in-flight
de-duplication), the earlier fetch can settle successfully and write the cache
entry while the later-issued fetch settles as a failure: the entry is then
present although the last fetch issued for that identity did not succeed. -/
theorem C4_counterexample_last_issued_fetch_failed :
    cacheReflectsLastFetch (runSys (fun _ => true) dupFetchEvents) = false := by
  decide

/-- C4 (amended): in every reachable state of the system, the cache holds at
most one entry per document identity, and the presence of an entry for identity
D with text v implies that some fetch issued for D settled successfully with
exactly v and that no invalidation of D and no dispose has occurred since that
fetch completed. -/
theorem C4_reachable_cache_entries_justified (cls : TextEditor → Bool)
    (events : List Event) :
    ((runSys cls events).provider.documents.map Prod.fst).Nodup ∧
    ∀ uri v, (uri, v) ∈ (runSys cls events).provider.documents →
      GoodEntry (runSys cls events).log uri v :=
  SysInv_foldl cls events initSys SysInv_init

/-- Witness for C4 (amended): the entry written by one successful fetch is
justified by the log of its run. -/
theorem C4_reachable_cache_entries_justified_witness :
    GoodEntry (runSys (fun _ => true)
        [Event.provideCall (some ⟨⟨"file:///a.ts"⟩⟩),
         Event.fetchSettled 0 (FetchOutcome.success "TREE(a)")]).log
      "file:///a.ts" "TREE(a)" :=
  (C4_reachable_cache_entries_justified (fun _ => true)
      [Event.provideCall (some ⟨⟨"file:///a.ts"⟩⟩),
       Event.fetchSettled 0 (FetchOutcome.success "TREE(a)")]).2
    "file:///a.ts" "TREE(a)" (by decide)

/-- C5: the active-editor-changed handler fires the notifier, with the fixed
view resource identity, exactly when the new editor is present and the external
relevance classifier accepts it; the cache is left unchanged in every case. -/
theorem C5_editor_change_fires_iff_relevant (cls : TextEditor → Bool)
    (st : ProviderState) (e : Option TextEditor) :
    (onDidChangeActiveTextEditor cls st e).documents = st.documents ∧
    ((onDidChangeActiveTextEditor cls st e).fires = st.fires ++ [viewUri] ↔
      ∃ ed, e = some ed ∧ cls ed = true) ∧
    ((onDidChangeActiveTextEditor cls st e).fires = st.fires ↔
      ¬ ∃ ed, e = some ed ∧ cls ed = true) := by
  cases e with
  | none => simp [onDidChangeActiveTextEditor]
  | some ed =>
      by_cases h : cls ed
      · simp [onDidChangeActiveTextEditor, h]
      · simp [onDidChangeActiveTextEditor, h]

/-- C6: a provideTextDocumentContent call made while there is no active editor
resolves with no content: the state comes back unchanged (nothing written, no
notifier fire), the fetch count is zero, and the outcome is the absent value
rather than an error. -/
theorem C6_no_active_editor_no_content (st : ProviderState) (outcome : FetchOutcome) :
    provideTextDocumentContent none st outcome = ⟨st, .noContent, 0⟩ := rfl

/-- C7: invalidating identity D1, through the document-changed handler, the
document-closed handler, or a raw cache delete, leaves the cache entry of every
other identity D2 exactly as it was. -/
theorem C7_invalidation_is_identity_scoped (st : ProviderState)
    (D1 D2 : FilePath) (d : TextDocument) (m : List (FilePath × String))
    (h : D1 ≠ D2) (hd : d.uri = D1) :
    mapGet (onDidChangeTextDocument st D1).documents D2 = mapGet st.documents D2 ∧
    mapGet (onDidCloseTextDocument st (some d)).documents D2 = mapGet st.documents D2 ∧
    mapGet (mapDelete m D1) D2 = mapGet m D2 := by
  refine ⟨?_, ?_, mapGet_mapDelete_ne m D1 D2 h⟩
  · simp only [onDidChangeTextDocument]
    exact mapGet_mapDelete_ne st.documents D1 D2 h
  · simp only [onDidCloseTextDocument, hd]
    exact mapGet_mapDelete_ne st.documents D1 D2 h

/-- Witness for C7: invalidating a.ts does not touch the entry of b.ts. -/
theorem C7_invalidation_is_identity_scoped_witness :
    mapGet (onDidChangeTextDocument
        ⟨[("file:///a.ts", "TREE(a)"), ("file:///b.ts", "TREE(b)")], []⟩
        "file:///a.ts").documents "file:///b.ts" =
      mapGet [("file:///a.ts", "TREE(a)"), ("file:///b.ts", "TREE(b)")]
        "file:///b.ts" ∧
    mapGet (onDidCloseTextDocument
        ⟨[("file:///a.ts", "TREE(a)"), ("file:///b.ts", "TREE(b)")], []⟩
        (some ⟨"file:///a.ts"⟩)).documents "file:///b.ts" =
      mapGet [("file:///a.ts", "TREE(a)"), ("file:///b.ts", "TREE(b)")]
        "file:///b.ts" ∧
    mapGet (mapDelete [("file:///a.ts", "TREE(a)"), ("file:///b.ts", "TREE(b)")]
        "file:///a.ts") "file:///b.ts" =
      mapGet [("file:///a.ts", "TREE(a)"), ("file:///b.ts", "TREE(b)")]
        "file:///b.ts" :=
  C7_invalidation_is_identity_scoped
    ⟨[("file:///a.ts", "TREE(a)"), ("file:///b.ts", "TREE(b)")], []⟩
    "file:///a.ts" "file:///b.ts" ⟨"file:///a.ts"⟩
    [("file:///a.ts", "TREE(a)"), ("file:///b.ts", "TREE(b)")]
    (by decide) rfl

/-- C8: the link-resolution query answers the empty link list exactly when the
given document is cached, and the absent value exactly when it is not. -/
theorem C8_links_empty_iff_cached (st : ProviderState) (document : TextDocument) :
    (provideDocumentLinks st document = some [] ↔
      ∃ v, mapGet st.documents document.uri = some v) ∧
    (provideDocumentLinks st document = none ↔
      mapGet st.documents document.uri = none) := by
  cases h : mapGet st.documents document.uri <;>
    simp [provideDocumentLinks, h]

/-- C9: after dispose, the cache lookup is absent for every identity, cached
before or not. -/
theorem C9_dispose_clears_cache (st : ProviderState) (D : FilePath) :
    mapGet (dispose st).documents D = none := rfl

/-- C10: on the cache-miss path the active document identity is captured once,
before the fetch is issued: the pending fetch carries the identity of the editor
read at call time, and on success the continuation, run against any later state
(in particular one reached after the active editor changed, which the
continuation never consults), stores the fetched artifact text under that
captured identity and resolves with it. -/
theorem C10_identity_captured_before_fetch (ed : TextEditor)
    (st st2 : ProviderState) (p : PendingFetch) (txt : String)
    (hstart : provideTextDocumentContent_start (some ed) st = .fetchStarted p) :
    p.documentUri = ed.document.uri ∧
    (provideTextDocumentContent_complete st2 p (.success txt)).2 = .content txt ∧
    mapGet (provideTextDocumentContent_complete st2 p
        (.success txt)).1.documents ed.document.uri = some txt := by
  have hp : p.documentUri = ed.document.uri := by
    simp only [provideTextDocumentContent_start] at hstart
    cases h : mapGet st.documents ed.document.uri with
    | none =>
        rw [h] at hstart
        cases hstart
        rfl
    | some v => rw [h] at hstart; cases hstart
  refine ⟨hp, rfl, ?_⟩
  simp only [provideTextDocumentContent_complete, hp]
  exact mapGet_mapSet_self st2.documents ed.document.uri txt

/-- Witness for C10: the fetch started from an empty cache for a.ts stores the
result under a.ts even when completed against a different later state. -/
theorem C10_identity_captured_before_fetch_witness :
    (⟨"file:///a.ts"⟩ : PendingFetch).documentUri = "file:///a.ts" ∧
    (provideTextDocumentContent_complete ⟨[("file:///b.ts", "TREE(b)")], [viewUri]⟩
        ⟨"file:///a.ts"⟩ (.success "TREE(a)")).2 = .content "TREE(a)" ∧
    mapGet (provideTextDocumentContent_complete
        ⟨[("file:///b.ts", "TREE(b)")], [viewUri]⟩
        ⟨"file:///a.ts"⟩ (.success "TREE(a)")).1.documents
      "file:///a.ts" = some "TREE(a)" :=
  C10_identity_captured_before_fetch ⟨⟨"file:///a.ts"⟩⟩ initialState
    ⟨[("file:///b.ts", "TREE(b)")], [viewUri]⟩ ⟨"file:///a.ts"⟩ "TREE(a)" rfl

end SyntaxTreeSpec
